import Mathlib

/-
  Verification of the `eos::String` byte-buffer class
  (src/contracts/eoslib/string.hpp).

  The class is shallowly embedded: the fields `size`, `data`, `own_memory`
  and `refcount` become a Lean structure, and the heap (malloc'd data
  blocks plus malloc'd refcount cells) becomes an explicit `Heap` value
  threaded through every operation.  `uint32_t` values are `Nat` reduced
  modulo `U32 = 2^32` exactly where the C++ arithmetic can wrap.  A raw
  pointer is a block identifier plus a byte offset, so pointer arithmetic
  `data + offset` stays inside a block.  Data bytes are stored as their
  unsigned values (`Nat` in [0, 256)); where the code reads a byte through
  plain `char` — signed on the wasm and x86 targets this code compiles
  for — the model applies `signedChar`.  That is the comparison loop of
  `compare`; `strlenUTF8` instead casts `*iterator` to `uint8_t` itself.
  A fatal `assert(cond, msg)` is modelled by returning `none`.
-/

set_option autoImplicit false

namespace eos

/-- 2^32, the modulus of `uint32_t` arithmetic. -/
def U32 : Nat := 4294967296

/-- A raw pointer: the identifier of the malloc'd block it points into and
the byte offset inside that block (`data + offset` adds to `off`). -/
structure Ptr where
  block : Nat
  off : Nat
deriving DecidableEq, Repr

/-- The null pointer. -/
def nullPtr : Ptr := ⟨0, 0⟩

/-- Lookup in an association list keyed by block/cell identifiers. -/
def lookupA {β : Type} : Nat → List (Nat × β) → Option β
  | _, [] => none
  | i, e :: t => if e.1 = i then some e.2 else lookupA i t

/-- Overwrite the value stored under key `i` (no-op if `i` is absent). -/
def updateA {β : Type} (i : Nat) (v : β) : List (Nat × β) → List (Nat × β)
  | [] => []
  | e :: t => if e.1 = i then (i, v) :: updateA i v t else e :: updateA i v t

/-- Remove every entry stored under key `i`. -/
def removeA {β : Type} (i : Nat) : List (Nat × β) → List (Nat × β)
  | [] => []
  | e :: t => if e.1 = i then removeA i t else e :: removeA i t

/-- The heap: live data blocks (byte lists), live refcount cells, and a
fresh-identifier counter for `malloc`. -/
structure Heap where
  blocks : List (Nat × List Nat)
  cells : List (Nat × Nat)
  next : Nat
deriving DecidableEq, Repr

namespace Heap

/-- The bytes of a live data block, `none` once freed / never allocated. -/
def lookupBlock (h : Heap) (i : Nat) : Option (List Nat) :=
  lookupA i h.blocks

/-- The value of a live refcount cell. -/
def lookupCell (h : Heap) (i : Nat) : Option Nat :=
  lookupA i h.cells

/-- Read `n` bytes starting at pointer `p` (what a `memcpy` from `p` or the
compare/length loops see); out-of-range reads just come up short. -/
def readBytes (h : Heap) (p : Ptr) (n : Nat) : List Nat :=
  (((h.lookupBlock p.block).getD []).drop p.off).take n

/-- Read the single byte `*p`. -/
def readByte (h : Heap) (p : Ptr) : Nat :=
  ((h.lookupBlock p.block).getD []).getD p.off 0

/-- `malloc` of a data block holding bytes `bs`; returns the fresh id. -/
def alloc (h : Heap) (bs : List Nat) : Nat × Heap :=
  (h.next, ⟨(h.next, bs) :: h.blocks, h.cells, h.next + 1⟩)

/-- `malloc` of a refcount cell initialised to `v`; returns the fresh id. -/
def allocCell (h : Heap) (v : Nat) : Nat × Heap :=
  (h.next, ⟨h.blocks, (h.next, v) :: h.cells, h.next + 1⟩)

/-- Store `v` into refcount cell `c`. -/
def setCell (h : Heap) (c v : Nat) : Heap :=
  ⟨h.blocks, updateA c v h.cells, h.next⟩

/-- `free` of data block `i`. -/
def freeBlock (h : Heap) (i : Nat) : Heap :=
  ⟨removeA i h.blocks, h.cells, h.next⟩

/-- `(*refcount)++` on cell `c` (`uint32_t` increment). -/
def bumpCell (h : Heap) (c : Nat) : Heap :=
  match lookupA c h.cells with
  | some n => h.setCell c ((n + 1) % U32)
  | none => h

/-- Well-formedness: every live identifier is below the fresh counter. -/
def WF (h : Heap) : Prop :=
  (∀ e ∈ h.blocks, e.1 < h.next) ∧ ∀ e ∈ h.cells, e.1 < h.next

end Heap

/-- `eos::String` (src/contracts/eoslib/string.hpp): a byte length, a raw
data pointer, the ownership flag, and the (possibly null) pointer to the
shared refcount cell. -/
structure String where
  size : Nat
  data : Ptr
  own_memory : Bool
  refcount : Option Nat
deriving DecidableEq, Repr

namespace String

/-- `String::release_data_if_needed`: if the string owns memory and has a
refcount cell, decrement the cell and `free(data)` exactly when it hits
zero.  (The cell itself is never freed by the C++ code.) -/
def release_data_if_needed (s : String) (h : Heap) : Heap :=
  if s.own_memory then
    match s.refcount with
    | some c =>
      match lookupA c h.cells with
      | some n =>
        let n' := (n + (U32 - 1)) % U32
        let h1 := h.setCell c n'
        if n' = 0 then h1.freeBlock s.data.block else h1
      | none => h
    | none => h
  else h

/-- The default constructor `String()`. -/
def mkEmpty : String := ⟨0, nullPtr, false, none⟩

/-- `String::assign(d, s, copy)` on a target `t`: release the old
reference, then either malloc-and-memcpy a fresh owned buffer with a fresh
refcount of 1, or store the borrowed pointer unowned. -/
def assign (t : String) (d : Ptr) (s : Nat) (copy : Bool) (h : Heap) :
    String × Heap :=
  let h0 := release_data_if_needed t h
  if copy then
    let content := h0.readBytes d s
    let a := h0.alloc content
    let a' := a.2.allocCell 1
    (⟨s, ⟨a.1, 0⟩, true, some a'.1⟩, a'.2)
  else
    (⟨s, d, false, none⟩, h0)

/-- The constructor `String(char* d, uint32_t s, bool copy)`, which
delegates to `assign` on a freshly created object.  (The C++ object's
fields are uninitialised at that point; the model takes the inert values
`own_memory = false`, `refcount = nullptr`, so the initial
`release_data_if_needed` is a no-op, which is the intended behaviour.) -/
def mkFromPtr (d : Ptr) (s : Nat) (copy : Bool) (h : Heap) : String × Heap :=
  assign ⟨0, nullPtr, false, none⟩ d s copy h

/-- The copy constructor `String(const String&)`: alias all four fields and
increment the shared counter when the cell pointer is non-null. -/
def copyCtor (obj : String) (h : Heap) : String × Heap :=
  let s : String := ⟨obj.size, obj.data, obj.own_memory, obj.refcount⟩
  match obj.refcount with
  | some c => (s, h.bumpCell c)
  | none => (s, h)

/-- `String::operator=` for two distinct objects: release the target's old
reference, then alias the source and increment its counter (the body of the
copy constructor). -/
def assignFrom (t obj : String) (h : Heap) : String × Heap :=
  copyCtor obj (release_data_if_needed t h)

/-- The destructor `~String()`. -/
def destruct (s : String) (h : Heap) : Heap :=
  release_data_if_needed s h

/-- `String::substr(offset, substr_size, copy)`:
`assert(offset < size && offset + substr_size < size)` (with `uint32_t`
addition), then construct `String(data + offset, substr_size, copy)`.
`none` is the fatal "out of bound" assertion. -/
def substr (s : String) (offset substr_size : Nat) (copy : Bool) (h : Heap) :
    Option (String × Heap) :=
  if offset < s.size ∧ (offset + substr_size) % U32 < s.size then
    some (mkFromPtr ⟨s.data.block, s.data.off + offset⟩ substr_size copy h)
  else none

/-- `String::strlen`: `size`, minus one when the last byte is `'\0'`. -/
def strlen (s : String) (h : Heap) : Nat :=
  if 0 < s.size ∧ h.readByte ⟨s.data.block, s.data.off + s.size - 1⟩ = 0 then
    s.size - 1
  else s.size

/-- The loop of `String::strlenUTF8`: count the bytes that are not UTF-8
continuation bytes (`0x80 ≤ byte ≤ 0xBF`). -/
def countLeadBytes : List Nat → Nat
  | [] => 0
  | b :: rest =>
    (if 0x80 ≤ b ∧ b ≤ 0xBF then 0 else 1) + countLeadBytes rest

/-- `String::strlenUTF8`: walk the bytes from `data` to `data + size`,
first backing `end` up over a trailing `'\0'`, counting non-continuation
bytes. -/
def strlenUTF8 (s : String) (h : Heap) : Nat :=
  let scan :=
    if 0 < s.size ∧ h.readByte ⟨s.data.block, s.data.off + s.size - 1⟩ = 0 then
      s.size - 1
    else s.size
  countLeadBytes (h.readBytes s.data scan)

/-- A data byte as the signed `char` value the comparison loop reads:
plain `char` is signed on the wasm and x86 targets of this code, so bytes
0x80-0xFF stand for the negative values -128..-1. -/
def signedChar (b : Nat) : Int :=
  if b < 128 then (b : Int) else (b : Int) - 256

/-- The loop of `String::compare`: first string exhausted first means -1,
second exhausted first means 1, else compare the head bytes as the plain
(signed) `char` values the C++ dereferences. -/
def compareBytes : List Nat → List Nat → Int
  | [], [] => 0
  | [], _ :: _ => -1
  | _ :: _, [] => 1
  | x :: xs, y :: ys =>
    if signedChar x > signedChar y then 1
    else if signedChar x < signedChar y then -1
    else compareBytes xs ys

/-- `String::compare(str)`, reading both byte runs from the heap. -/
def compare (a b : String) (h : Heap) : Int :=
  compareBytes (h.readBytes a.data a.size) (h.readBytes b.data b.size)

/-- `operator<`. -/
def ltOp (a b : String) (h : Heap) : Bool :=
  decide (compare a b h < 0)

/-- `operator>`. -/
def gtOp (a b : String) (h : Heap) : Bool :=
  decide (compare a b h > 0)

/-- `operator==`. -/
def eqOp (a b : String) (h : Heap) : Bool :=
  decide (compare a b h = 0)

/-- `operator!=`. -/
def neOp (a b : String) (h : Heap) : Bool :=
  decide (compare a b h ≠ 0)

/-- `String::operator+=`:
`assert(size + str.size > size && size + str.size > str.size)` in
`uint32_t` arithmetic (`none` is the fatal "overflow" assertion); build the
new buffer (dropping a trailing `'\0'` of the left operand), release the
old data only afterwards, adopt the new buffer with a fresh refcount of 1. -/
def appendAssign (s str : String) (h : Heap) : Option (String × Heap) :=
  if s.size < (s.size + str.size) % U32 ∧ str.size < (s.size + str.size) % U32 then
    let nd :=
      if 0 < s.size ∧ h.readByte ⟨s.data.block, s.data.off + s.size - 1⟩ = 0 then
        ((s.size - 1 + str.size) % U32,
          h.readBytes s.data (s.size - 1) ++ h.readBytes str.data str.size)
      else
        ((s.size + str.size) % U32,
          h.readBytes s.data s.size ++ h.readBytes str.data str.size)
    let a := h.alloc nd.2
    let h2 := release_data_if_needed s a.2
    let a' := h2.allocCell 1
    some (⟨nd.1, ⟨a.1, 0⟩, true, some a'.1⟩, a'.2)
  else none

/-- `operator+ (String lhs, const String& rhs)`: `lhs` is passed by value
(one run of the copy constructor), then `lhs += rhs`. -/
def appendPure (lhs rhs : String) (h : Heap) : Option (String × Heap) :=
  let l := copyCtor lhs h
  appendAssign l.1 rhs l.2

end String

/-- Spec-side lexicographic strict order on byte runs, reading bytes as
unsigned values as the claim's "byte-wise" wording does: `a` is a strict
prefix of `b`, or at the first differing position `a`'s byte is smaller. -/
def lexLtSpec (a b : List Nat) : Prop :=
  (∃ t, b = a ++ t ∧ t ≠ []) ∨
  ∃ p x y u v, a = p ++ x :: u ∧ b = p ++ y :: v ∧ x < y

/-- Spec-side lexicographic strict order by signed `char` value, the order
the comparison loop actually implements: `a` is a strict prefix of `b`, or
at the first differing position `a`'s byte is smaller as a signed char. -/
def lexLtSignedSpec (a b : List Nat) : Prop :=
  (∃ t, b = a ++ t ∧ t ≠ []) ∨
  ∃ p x y u v, a = p ++ x :: u ∧ b = p ++ y :: v ∧
    String.signedChar x < String.signedChar y

/-- A read-only heap of borrowed test buffers (ASCII contents noted). -/
def wHeap : Heap :=
  ⟨[(1, [97, 98, 99, 100, 101]),            -- abcde
    (2, [104, 101, 108, 108, 111]),          -- hello
    (3, [97, 98, 0]),                        -- ab NUL
    (4, [99, 100]),                          -- cd
    (5, [97, 98, 99, 0]),                    -- abc NUL
    (6, [97, 98, 99]),                       -- abc
    (7, [104, 195, 169, 108, 108, 111]),     -- h, e-acute (2 bytes), llo
    (8, [104, 195, 169, 108, 108, 111, 0]),
    (9, [97, 98, 100]),                      -- abd
    (10, [97, 98, 99, 100])], [], 11⟩        -- abcd

def wAbcde : String := ⟨5, ⟨1, 0⟩, false, none⟩
def wAb0 : String := ⟨3, ⟨3, 0⟩, false, none⟩
def wCd : String := ⟨2, ⟨4, 0⟩, false, none⟩
def wAbc0 : String := ⟨4, ⟨5, 0⟩, false, none⟩
def wAbc : String := ⟨3, ⟨6, 0⟩, false, none⟩
def wHacc : String := ⟨6, ⟨7, 0⟩, false, none⟩
def wHacc0 : String := ⟨7, ⟨8, 0⟩, false, none⟩
def wAbd : String := ⟨3, ⟨9, 0⟩, false, none⟩
def wAbcd : String := ⟨4, ⟨10, 0⟩, false, none⟩

/-- A 4294967295-byte string header (the bytes themselves are never read
on the overflow path). -/
def wBig : String := ⟨4294967295, ⟨1, 0⟩, false, none⟩

/-- A heap for the signedness example: block 1 holds the byte 0x61 (an
ASCII letter), block 2 the byte 0xC3 (a high byte, negative as a char). -/
def wHeapC : Heap := ⟨[(1, [97]), (2, [195])], [], 3⟩

/-- The 1-byte buffer 0x61 over `wHeapC`. -/
def wLowA : String := ⟨1, ⟨1, 0⟩, false, none⟩

/-- The 1-byte buffer 0xC3 over `wHeapC`. -/
def wHiByte : String := ⟨1, ⟨2, 0⟩, false, none⟩

/-- A heap holding one owned allocation (block 1) with refcount cell 2 = 1. -/
def wHeapOwn : Heap := ⟨[(1, [104, 101, 108, 108, 111])], [(2, 1)], 3⟩

/-- The sole owner of block 1 of `wHeapOwn`. -/
def wOwnHello : String := ⟨5, ⟨1, 0⟩, true, some 2⟩

/-- A heap where block 1 (ab NUL) is owned with refcount cell 3 = 2,
and block 2 (cd) is borrowed. -/
def wHeapShared : Heap := ⟨[(1, [97, 98, 0]), (2, [99, 100])], [(3, 2)], 4⟩

/-- One of the two owners of block 1 of `wHeapShared`. -/
def wOwnAb0 : String := ⟨3, ⟨1, 0⟩, true, some 3⟩

/-- A borrowed view of block 2 of `wHeapShared`. -/
def wCdShared : String := ⟨2, ⟨2, 0⟩, false, none⟩

section AssocLemmas

variable {β : Type}

theorem lookupA_updateA_self {l : List (Nat × β)} {i : Nat} {w : β} (v : β)
    (hl : lookupA i l = some w) : lookupA i (updateA i v l) = some v := by
  induction l with
  | nil => simp [lookupA] at hl
  | cons e t ih =>
    by_cases he : e.1 = i
    · simp [lookupA, updateA, he]
    · simp [lookupA, updateA, he] at hl ⊢
      exact ih hl

theorem lookupA_updateA_ne {l : List (Nat × β)} {i j : Nat} (v : β)
    (hne : j ≠ i) : lookupA j (updateA i v l) = lookupA j l := by
  induction l with
  | nil => simp [updateA]
  | cons e t ih =>
    by_cases he : e.1 = i
    · simp [lookupA, updateA, he, Ne.symm hne, ih]
    · by_cases hj : e.1 = j <;> simp [lookupA, updateA, he, hj, hne, ih]

theorem lookupA_removeA_self {l : List (Nat × β)} {i : Nat} :
    lookupA i (removeA i l) = none := by
  induction l with
  | nil => simp [removeA, lookupA]
  | cons e t ih =>
    by_cases he : e.1 = i <;> simp [removeA, lookupA, he, ih]

theorem lookupA_removeA_ne {l : List (Nat × β)} {i j : Nat} (hne : j ≠ i) :
    lookupA j (removeA i l) = lookupA j l := by
  induction l with
  | nil => simp [removeA]
  | cons e t ih =>
    by_cases he : e.1 = i
    · simp [removeA, lookupA, he, Ne.symm hne, ih]
    · by_cases hj : e.1 = j <;> simp [removeA, lookupA, he, hj, hne, ih]

theorem lookupA_lt {l : List (Nat × β)} {j n : Nat} {v : β}
    (hall : ∀ e ∈ l, e.1 < n) (hl : lookupA j l = some v) : j < n := by
  induction l with
  | nil => simp [lookupA] at hl
  | cons e t ih =>
    by_cases he : e.1 = j
    · exact he ▸ hall e (List.mem_cons_self e t)
    · simp [lookupA, he] at hl
      exact ih (fun e' he' => hall e' (List.mem_cons_of_mem e he')) hl

theorem mem_updateA_key {l : List (Nat × β)} {i : Nat} {v : β} :
    ∀ e' ∈ updateA i v l, ∃ e ∈ l, e'.1 = e.1 := by
  induction l with
  | nil => simp [updateA]
  | cons e t ih =>
    intro e' he'
    by_cases he : e.1 = i
    · simp [updateA, he] at he'
      rcases he' with h | h
      · exact ⟨e, List.mem_cons_self e t, by simp [h, he]⟩
      · rcases ih e' h with ⟨a, ha, hk⟩
        exact ⟨a, List.mem_cons_of_mem e ha, hk⟩
    · simp [updateA, he] at he'
      rcases he' with h | h
      · exact ⟨e, List.mem_cons_self e t, by simp [h]⟩
      · rcases ih e' h with ⟨a, ha, hk⟩
        exact ⟨a, List.mem_cons_of_mem e ha, hk⟩

theorem mem_removeA {l : List (Nat × β)} {i : Nat} :
    ∀ e' ∈ removeA i l, e' ∈ l := by
  induction l with
  | nil => simp [removeA]
  | cons e t ih =>
    intro e' he'
    by_cases he : e.1 = i
    · simp [removeA, he] at he'
      exact List.mem_cons_of_mem e (ih e' he')
    · simp [removeA, he] at he'
      rcases he' with h | h
      · simp [h]
      · exact List.mem_cons_of_mem e (ih e' h)

end AssocLemmas

namespace Heap

@[simp] theorem blocks_setCell (h : Heap) (c v : Nat) :
    (h.setCell c v).blocks = h.blocks := rfl

@[simp] theorem cells_freeBlock (h : Heap) (i : Nat) :
    (h.freeBlock i).cells = h.cells := rfl

@[simp] theorem next_setCell (h : Heap) (c v : Nat) :
    (h.setCell c v).next = h.next := rfl

@[simp] theorem next_freeBlock (h : Heap) (i : Nat) :
    (h.freeBlock i).next = h.next := rfl

@[simp] theorem lookupBlock_setCell (h : Heap) (c v j : Nat) :
    (h.setCell c v).lookupBlock j = h.lookupBlock j := rfl

@[simp] theorem readBytes_setCell (h : Heap) (c v : Nat) (p : Ptr) (n : Nat) :
    (h.setCell c v).readBytes p n = h.readBytes p n := rfl

@[simp] theorem readByte_setCell (h : Heap) (c v : Nat) (p : Ptr) :
    (h.setCell c v).readByte p = h.readByte p := rfl

@[simp] theorem lookupCell_freeBlock (h : Heap) (i j : Nat) :
    (h.freeBlock i).lookupCell j = h.lookupCell j := rfl

@[simp] theorem lookupBlock_freeBlock_self (h : Heap) (i : Nat) :
    (h.freeBlock i).lookupBlock i = none :=
  lookupA_removeA_self

theorem lookupBlock_freeBlock_ne (h : Heap) {i j : Nat} (hne : j ≠ i) :
    (h.freeBlock i).lookupBlock j = h.lookupBlock j :=
  lookupA_removeA_ne hne

theorem lookupCell_setCell_self {h : Heap} {c n : Nat} (v : Nat)
    (hc : h.lookupCell c = some n) :
    (h.setCell c v).lookupCell c = some v :=
  lookupA_updateA_self v hc

theorem lookupCell_setCell_ne (h : Heap) {c j : Nat} (v : Nat) (hne : j ≠ c) :
    (h.setCell c v).lookupCell j = h.lookupCell j :=
  lookupA_updateA_ne v hne

@[simp] theorem lookupBlock_alloc_self (h : Heap) (bs : List Nat) :
    (h.alloc bs).2.lookupBlock h.next = some bs := by
  simp [alloc, lookupBlock, lookupA]

theorem lookupBlock_alloc_ne (h : Heap) (bs : List Nat) {j : Nat}
    (hne : j ≠ h.next) : (h.alloc bs).2.lookupBlock j = h.lookupBlock j := by
  simp [alloc, lookupBlock, lookupA, Ne.symm hne]

@[simp] theorem cells_alloc (h : Heap) (bs : List Nat) :
    (h.alloc bs).2.cells = h.cells := rfl

@[simp] theorem blocks_allocCell (h : Heap) (v : Nat) :
    (h.allocCell v).2.blocks = h.blocks := rfl

@[simp] theorem lookupCell_allocCell_self (h : Heap) (v : Nat) :
    (h.allocCell v).2.lookupCell (h.allocCell v).1 = some v := by
  simp [allocCell, lookupCell, lookupA]

theorem lookupCell_allocCell_ne (h : Heap) (v : Nat) {j : Nat}
    (hne : j ≠ h.next) : (h.allocCell v).2.lookupCell j = h.lookupCell j := by
  simp [allocCell, lookupCell, lookupA, Ne.symm hne]

theorem lookupBlock_lt_next {h : Heap} {j : Nat} {bs : List Nat}
    (hw : h.WF) (hj : h.lookupBlock j = some bs) : j < h.next :=
  lookupA_lt hw.1 hj

theorem lookupCell_lt_next {h : Heap} {j n : Nat}
    (hw : h.WF) (hj : h.lookupCell j = some n) : j < h.next :=
  lookupA_lt hw.2 hj

theorem WF_setCell {h : Heap} (hw : h.WF) (c v : Nat) : (h.setCell c v).WF := by
  refine ⟨hw.1, fun e he => ?_⟩
  rcases mem_updateA_key e he with ⟨a, ha, hk⟩
  simpa [hk] using hw.2 a ha

theorem WF_freeBlock {h : Heap} (hw : h.WF) (i : Nat) : (h.freeBlock i).WF :=
  ⟨fun e he => hw.1 e (mem_removeA e he), hw.2⟩

end Heap

namespace String

theorem signedChar_inj {x y : Nat} (hx : x < 256) (hy : y < 256)
    (hs : signedChar x = signedChar y) : x = y := by
  unfold signedChar at hs
  split_ifs at hs <;> omega

theorem compareBytes_trichot (a b : List Nat) :
    compareBytes a b = 1 ∨ compareBytes a b = 0 ∨ compareBytes a b = -1 := by
  induction a generalizing b with
  | nil => cases b <;> simp [compareBytes]
  | cons x xs ih =>
    cases b with
    | nil => simp [compareBytes]
    | cons y ys =>
      by_cases hgt : signedChar x > signedChar y
      · simp [compareBytes, hgt]
      · by_cases hlt : signedChar x < signedChar y
        · simp [compareBytes, hgt, hlt]
        · simpa [compareBytes, hgt, hlt] using ih ys

theorem compareBytes_self (l : List Nat) : compareBytes l l = 0 := by
  induction l with
  | nil => rfl
  | cons x xs ih => simp [compareBytes, ih]

theorem compareBytes_eq_zero_iff : ∀ a b : List Nat,
    (∀ x ∈ a, x < 256) → (∀ y ∈ b, y < 256) →
    (compareBytes a b = 0 ↔ a = b) := by
  intro a
  induction a with
  | nil =>
    intro b _ _
    cases b <;> simp [compareBytes]
  | cons x xs ih =>
    intro b hva hvb
    cases b with
    | nil => simp [compareBytes]
    | cons y ys =>
      have hx : x < 256 := hva x (List.mem_cons_self x xs)
      have hy : y < 256 := hvb y (List.mem_cons_self y ys)
      have hxs : ∀ u ∈ xs, u < 256 :=
        fun u hu => hva u (List.mem_cons_of_mem x hu)
      have hys : ∀ u ∈ ys, u < 256 :=
        fun u hu => hvb u (List.mem_cons_of_mem y hu)
      by_cases hgt : signedChar x > signedChar y
      · have hne : x ≠ y := by
          intro hcon
          rw [hcon] at hgt
          exact lt_irrefl _ hgt
        simp [compareBytes, hgt, hne]
      · by_cases hlt : signedChar x < signedChar y
        · have hne : x ≠ y := by
            intro hcon
            rw [hcon] at hlt
            exact lt_irrefl _ hlt
          simp [compareBytes, hgt, hlt, hne]
        · have hxy : x = y := signedChar_inj hx hy (by omega)
          simp [compareBytes, hgt, hlt, hxy, ih ys hxs hys]

theorem compareBytes_neg (a b : List Nat) :
    compareBytes b a = -compareBytes a b := by
  induction a generalizing b with
  | nil => cases b <;> simp [compareBytes]
  | cons x xs ih =>
    cases b with
    | nil => simp [compareBytes]
    | cons y ys =>
      by_cases hgt : signedChar x > signedChar y
      · have h1 : ¬ signedChar y > signedChar x := by omega
        simp [compareBytes, hgt, h1]
      · by_cases hlt : signedChar x < signedChar y
        · have h1 : ¬ signedChar x > signedChar y := by omega
          simp [compareBytes, hgt, hlt]
        · have h1 : ¬ signedChar y > signedChar x := by omega
          have h2 : ¬ signedChar y < signedChar x := by omega
          simp [compareBytes, hgt, hlt, h1, h2, ih]

theorem lexLtSignedSpec_nil_right (a : List Nat) : ¬ lexLtSignedSpec a [] := by
  rintro (⟨t, ht, hne⟩ | ⟨p, x, y, u, v, _, hb, _⟩)
  · rcases List.append_eq_nil.mp ht.symm with ⟨_, h2⟩
    exact hne h2
  · exact absurd hb.symm (by simp)

theorem lexLtSignedSpec_nil_cons (y : Nat) (ys : List Nat) :
    lexLtSignedSpec [] (y :: ys) :=
  Or.inl ⟨y :: ys, rfl, by simp⟩

theorem lexLtSignedSpec_cons_cons (x y : Nat) (xs ys : List Nat) :
    lexLtSignedSpec (x :: xs) (y :: ys) ↔
      signedChar x < signedChar y ∨ (x = y ∧ lexLtSignedSpec xs ys) := by
  constructor
  · rintro (⟨t, ht, hne⟩ | ⟨p, a, b, u, v, ha, hb, hlt⟩)
    · rcases List.cons_eq_cons.mp ht with ⟨hxy, hys⟩
      exact Or.inr ⟨hxy.symm, Or.inl ⟨t, hys, hne⟩⟩
    · cases p with
      | nil =>
        rcases List.cons_eq_cons.mp ha with ⟨hxa, _⟩
        rcases List.cons_eq_cons.mp hb with ⟨hyb, _⟩
        exact Or.inl (hxa ▸ hyb ▸ hlt)
      | cons z p' =>
        rcases List.cons_eq_cons.mp ha with ⟨hxz, ha'⟩
        rcases List.cons_eq_cons.mp hb with ⟨hyz, hb'⟩
        refine Or.inr ⟨hxz.trans hyz.symm,
          Or.inr ⟨p', a, b, u, v, ha', hb', hlt⟩⟩
  · rintro (hlt | ⟨rfl, ⟨t, ht, hne⟩ | ⟨p, a, b, u, v, ha, hb, hl⟩⟩)
    · exact Or.inr ⟨[], x, y, xs, ys, rfl, rfl, hlt⟩
    · exact Or.inl ⟨t, by simp [ht], hne⟩
    · exact Or.inr ⟨x :: p, a, b, u, v, by simp [ha], by simp [hb], hl⟩

theorem compareBytes_eq_negOne_iff : ∀ a b : List Nat,
    (∀ x ∈ a, x < 256) → (∀ y ∈ b, y < 256) →
    (compareBytes a b = -1 ↔ lexLtSignedSpec a b) := by
  intro a
  induction a with
  | nil =>
    intro b _ _
    cases b with
    | nil =>
      simp [compareBytes]
      exact lexLtSignedSpec_nil_right []
    | cons y ys =>
      simp [compareBytes]
      exact lexLtSignedSpec_nil_cons y ys
  | cons x xs ih =>
    intro b hva hvb
    cases b with
    | nil =>
      simp [compareBytes]
      exact lexLtSignedSpec_nil_right (x :: xs)
    | cons y ys =>
      have hx : x < 256 := hva x (List.mem_cons_self x xs)
      have hy : y < 256 := hvb y (List.mem_cons_self y ys)
      have hxs : ∀ u ∈ xs, u < 256 :=
        fun u hu => hva u (List.mem_cons_of_mem x hu)
      have hys : ∀ u ∈ ys, u < 256 :=
        fun u hu => hvb u (List.mem_cons_of_mem y hu)
      by_cases hgt : signedChar x > signedChar y
      · have h1 : ¬ signedChar x < signedChar y := by omega
        have hne : x ≠ y := by
          intro hcon
          rw [hcon] at hgt
          exact lt_irrefl _ hgt
        simp [compareBytes, hgt, lexLtSignedSpec_cons_cons, h1, hne]
      · by_cases hlt : signedChar x < signedChar y
        · simp [compareBytes, hgt, hlt, lexLtSignedSpec_cons_cons]
        · have hxy : x = y := signedChar_inj hx hy (by omega)
          simp [compareBytes, hgt, hlt, lexLtSignedSpec_cons_cons, hxy,
            ih ys hxs hys]

theorem compareBytes_eq_one_iff (a b : List Nat)
    (hva : ∀ x ∈ a, x < 256) (hvb : ∀ y ∈ b, y < 256) :
    compareBytes a b = 1 ↔ lexLtSignedSpec b a := by
  rw [← compareBytes_eq_negOne_iff b a hvb hva, compareBytes_neg b a]
  omega

end String

namespace Heap

theorem readBytes_pred {h : Heap} {p : Ptr} {n : Nat}
    (hlen : (h.readBytes p n).length = n) :
    h.readBytes p (n - 1) = (h.readBytes p n).dropLast := by
  unfold readBytes at *
  rw [List.dropLast_eq_take, hlen, List.take_take]
  congr 1
  omega

theorem readByte_last {h : Heap} {p : Ptr} {n : Nat} (hn : 0 < n)
    (hlen : (h.readBytes p n).length = n) :
    h.readByte ⟨p.block, p.off + n - 1⟩ = ((h.readBytes p n).getLast?).getD 0 := by
  unfold readBytes readByte at *
  dsimp only
  rw [List.getLast?_eq_getElem?, hlen, List.getElem?_take_of_lt (by omega),
    List.getElem?_drop, List.getD_eq_getElem?_getD]
  congr 2
  omega

@[simp] theorem fst_alloc (h : Heap) (bs : List Nat) : (h.alloc bs).1 = h.next :=
  rfl

@[simp] theorem next_alloc (h : Heap) (bs : List Nat) :
    (h.alloc bs).2.next = h.next + 1 := rfl

@[simp] theorem lookupCell_alloc (h : Heap) (bs : List Nat) (j : Nat) :
    (h.alloc bs).2.lookupCell j = h.lookupCell j := rfl

@[simp] theorem fst_allocCell (h : Heap) (v : Nat) :
    (h.allocCell v).1 = h.next := rfl

@[simp] theorem next_allocCell (h : Heap) (v : Nat) :
    (h.allocCell v).2.next = h.next + 1 := rfl

@[simp] theorem lookupBlock_allocCell (h : Heap) (v : Nat) (j : Nat) :
    (h.allocCell v).2.lookupBlock j = h.lookupBlock j := rfl

theorem readBytes_full_take {h : Heap} {p : Ptr} {n m : Nat}
    (hlen : (h.readBytes p n).length = n) (hm : m ≤ n) :
    (h.readBytes p m).length = m := by
  unfold readBytes at *
  rw [List.length_take] at hlen ⊢
  omega

theorem lookupBlock_next_none {h : Heap} (hw : h.WF) :
    h.lookupBlock h.next = none := by
  cases hx : h.lookupBlock h.next with
  | none => rfl
  | some x => exact absurd (lookupBlock_lt_next hw hx) (by omega)

theorem readByte_last_zero_iff {h : Heap} {p : Ptr} {n : Nat} (hn : 0 < n)
    (hlen : (h.readBytes p n).length = n) :
    h.readByte ⟨p.block, p.off + n - 1⟩ = 0 ↔
      (h.readBytes p n).getLast? = some 0 := by
  rw [readByte_last hn hlen]
  have hne : h.readBytes p n ≠ [] := by
    intro hcon
    rw [hcon] at hlen
    simp at hlen
    omega
  rw [List.getLast?_eq_getLast_of_ne_nil hne]
  simp

end Heap

namespace String

theorem release_not_owning (s : String) (h : Heap)
    (ho : s.own_memory = false) : release_data_if_needed s h = h := by
  simp [release_data_if_needed, ho]

theorem release_no_cell (s : String) (h : Heap)
    (hr : s.refcount = none) : release_data_if_needed s h = h := by
  by_cases ho : s.own_memory <;>
    simp [release_data_if_needed, ho, hr]

theorem release_dec {s : String} {h : Heap} {c n : Nat}
    (ho : s.own_memory = true) (hr : s.refcount = some c)
    (hc : h.lookupCell c = some (n + 1)) (hlt : n + 1 < U32) :
    release_data_if_needed s h =
      if n = 0 then (h.setCell c n).freeBlock s.data.block
      else h.setCell c n := by
  have hstep : (n + 1 + (U32 - 1)) % U32 = n := by
    have h1 : 0 < U32 := by decide
    have h2 : n + 1 + (U32 - 1) = n + U32 := by omega
    rw [h2, Nat.add_mod_right, Nat.mod_eq_of_lt (by omega)]
  unfold Heap.lookupCell at hc
  simp only [release_data_if_needed, ho, hr, hc, hstep, if_true]

theorem next_release (s : String) (h : Heap) :
    (release_data_if_needed s h).next = h.next := by
  unfold release_data_if_needed
  by_cases ho : s.own_memory
  · cases hr : s.refcount with
    | none => simp [ho]
    | some c =>
      cases hc : lookupA c h.cells with
      | none => simp [ho, hc]
      | some n => by_cases hz : (n + (U32 - 1)) % U32 = 0 <;> simp [ho, hc, hz]
  · simp [ho]

theorem release_lookupBlock_ne (s : String) (h : Heap) {j : Nat}
    (hj : j ≠ s.data.block) :
    (release_data_if_needed s h).lookupBlock j = h.lookupBlock j := by
  unfold release_data_if_needed
  by_cases ho : s.own_memory
  · cases hr : s.refcount with
    | none => simp [ho]
    | some c =>
      cases hc : lookupA c h.cells with
      | none => simp [ho, hc]
      | some n =>
        by_cases hz : (n + (U32 - 1)) % U32 = 0 <;>
          simp [ho, hc, hz, Heap.lookupBlock_freeBlock_ne _ hj]
  · simp [ho]

theorem release_lookupCell_other (s : String) (h : Heap) {j : Nat}
    (hj : s.refcount ≠ some j) :
    (release_data_if_needed s h).lookupCell j = h.lookupCell j := by
  unfold release_data_if_needed
  by_cases ho : s.own_memory
  · cases hr : s.refcount with
    | none => simp [ho]
    | some c =>
      have hcj : j ≠ c := fun hcon => hj (by rw [hr, hcon])
      cases hc : lookupA c h.cells with
      | none => simp [ho, hc]
      | some n =>
        by_cases hz : (n + (U32 - 1)) % U32 = 0 <;>
          simp [ho, hc, hz, Heap.lookupCell_setCell_ne _ _ hcj]
  · simp [ho]

theorem copyCtor_fst (obj : String) (h : Heap) : (copyCtor obj h).1 = obj := by
  rcases obj with ⟨sz, d, om, rc⟩
  cases rc <;> simp [copyCtor]

theorem copyCtor_blocks (obj : String) (h : Heap) :
    (copyCtor obj h).2.blocks = h.blocks := by
  cases hr : obj.refcount with
  | none => simp [copyCtor, hr]
  | some c =>
    cases hc : lookupA c h.cells <;>
      simp [copyCtor, Heap.bumpCell, hr, hc, Heap.setCell]

theorem copyCtor_snd_none (obj : String) (h : Heap)
    (hr : obj.refcount = none) : (copyCtor obj h).2 = h := by
  simp [copyCtor, hr]

theorem copyCtor_snd_some {obj : String} (h : Heap) {c n : Nat}
    (hr : obj.refcount = some c) (hc : h.lookupCell c = some n) :
    (copyCtor obj h).2 = h.setCell c ((n + 1) % U32) := by
  unfold Heap.lookupCell at hc
  simp [copyCtor, Heap.bumpCell, hr, hc]

theorem copyCtor_lookupBlock (obj : String) (h : Heap) (j : Nat) :
    (copyCtor obj h).2.lookupBlock j = h.lookupBlock j := by
  unfold Heap.lookupBlock
  rw [copyCtor_blocks]

theorem copyCtor_readBytes (obj : String) (h : Heap) (p : Ptr) (n : Nat) :
    (copyCtor obj h).2.readBytes p n = h.readBytes p n := by
  unfold Heap.readBytes
  rw [copyCtor_lookupBlock]

theorem copyCtor_WF {obj : String} {h : Heap} (hw : h.WF) :
    (copyCtor obj h).2.WF := by
  cases hr : obj.refcount with
  | none => rw [copyCtor_snd_none obj h hr]; exact hw
  | some c =>
    have hb : (copyCtor obj h).2 = h.bumpCell c := by simp [copyCtor, hr]
    rw [hb]
    unfold Heap.bumpCell
    cases hc : lookupA c h.cells with
    | none => exact hw
    | some n => exact Heap.WF_setCell hw c _

theorem appendAssign_none_iff (s str : String) (h : Heap) :
    appendAssign s str h = none ↔
      ¬(s.size < (s.size + str.size) % U32 ∧
        str.size < (s.size + str.size) % U32) := by
  by_cases hchk : s.size < (s.size + str.size) % U32 ∧
      str.size < (s.size + str.size) % U32 <;>
    simp [appendAssign, hchk]

theorem appendPure_none_iff (s str : String) (h : Heap) :
    appendPure s str h = none ↔ appendAssign s str h = none := by
  unfold appendPure
  rw [appendAssign_none_iff, appendAssign_none_iff, copyCtor_fst]

theorem mkFromPtr_view_eq (d : Ptr) (n : Nat) (h : Heap) :
    mkFromPtr d n false h = (⟨n, d, false, none⟩, h) := by
  unfold mkFromPtr assign
  rw [release_not_owning _ _ rfl]
  simp

theorem mkFromPtr_copy_eq (d : Ptr) (n : Nat) (h : Heap) :
    mkFromPtr d n true h =
      (⟨n, ⟨h.next, 0⟩, true, some (h.next + 1)⟩,
        ((h.alloc (h.readBytes d n)).2.allocCell 1).2) := by
  unfold mkFromPtr assign
  rw [release_not_owning _ _ rfl]
  simp

theorem append_check_iff {a b : Nat} (ha : a < U32) (hb : b < U32) :
    (a < (a + b) % U32 ∧ b < (a + b) % U32) ↔
      0 < a ∧ 0 < b ∧ a + b < U32 := by
  constructor
  · rintro ⟨h1, h2⟩
    by_cases hs : a + b < U32
    · rw [Nat.mod_eq_of_lt hs] at h1 h2
      exact ⟨by omega, by omega, hs⟩
    · have h32 : 0 < U32 := by decide
      have hlt : a + b - U32 < U32 := by omega
      have hsub : (a + b) % U32 = a + b - U32 := by
        rw [Nat.mod_eq_sub_mod (by omega), Nat.mod_eq_of_lt hlt]
      omega
  · rintro ⟨h1, h2, hs⟩
    rw [Nat.mod_eq_of_lt hs]
    omega

theorem appendAssign_success (s str : String) (h : Heap) {blk : List Nat}
    (hw : h.WF)
    (hblk : h.lookupBlock s.data.block = some blk)
    (hchk : s.size < (s.size + str.size) % U32 ∧
      str.size < (s.size + str.size) % U32) :
    ∃ r h₂, appendAssign s str h = some (r, h₂) ∧
      r.size = (if 0 < s.size ∧
          h.readByte ⟨s.data.block, s.data.off + s.size - 1⟩ = 0 then
          (s.size - 1 + str.size) % U32 else (s.size + str.size) % U32) ∧
      r.data = ⟨h.next, 0⟩ ∧ r.own_memory = true ∧
      r.refcount = some (h.next + 1) ∧
      h.lookupBlock h.next = none ∧
      h₂.lookupBlock h.next = some (if 0 < s.size ∧
          h.readByte ⟨s.data.block, s.data.off + s.size - 1⟩ = 0 then
          h.readBytes s.data (s.size - 1) ++ h.readBytes str.data str.size
        else h.readBytes s.data s.size ++ h.readBytes str.data str.size) ∧
      h₂.lookupCell (h.next + 1) = some 1 ∧
      (∀ j, j ≠ s.data.block → j ≠ h.next →
        h₂.lookupBlock j = h.lookupBlock j) ∧
      (∀ d n, s.own_memory = true → s.refcount = some d →
        h.lookupCell d = some (n + 1) → n + 1 < U32 →
        h₂.lookupCell d = some n ∧
        (0 < n → h₂.lookupBlock s.data.block = some blk)) ∧
      (s.own_memory = false ∨ s.refcount = none →
        h₂.lookupBlock s.data.block = some blk) := by
  have hnb : s.data.block < h.next := Heap.lookupBlock_lt_next hw hblk
  have hfresh : h.lookupBlock h.next = none := Heap.lookupBlock_next_none hw
  set nd :=
    (if 0 < s.size ∧ h.readByte ⟨s.data.block, s.data.off + s.size - 1⟩ = 0 then
      ((s.size - 1 + str.size) % U32,
        h.readBytes s.data (s.size - 1) ++ h.readBytes str.data str.size)
    else
      ((s.size + str.size) % U32,
        h.readBytes s.data s.size ++ h.readBytes str.data str.size))
    with hnd
  have happ : appendAssign s str h =
      some (⟨nd.1, ⟨h.next, 0⟩, true,
        some ((release_data_if_needed s (h.alloc nd.2).2).allocCell 1).1⟩,
        ((release_data_if_needed s (h.alloc nd.2).2).allocCell 1).2) := by
    simp only [appendAssign, if_pos hchk]
    rw [← hnd, Heap.fst_alloc]
  have hrelnext : (release_data_if_needed s (h.alloc nd.2).2).next =
      h.next + 1 := by
    rw [next_release, Heap.next_alloc]
  have hrelblk : ∀ j, j ≠ s.data.block →
      (release_data_if_needed s (h.alloc nd.2).2).lookupBlock j =
        (h.alloc nd.2).2.lookupBlock j :=
    fun j hj => release_lookupBlock_ne s (h.alloc nd.2).2 hj
  refine ⟨_, _, happ, ?_, rfl, rfl, ?_, hfresh, ?_, ?_, ?_, ?_, ?_⟩
  · by_cases hP : 0 < s.size ∧
        h.readByte ⟨s.data.block, s.data.off + s.size - 1⟩ = 0 <;>
      simp [hnd, hP]
  · rw [Heap.fst_allocCell, hrelnext]
  · rw [Heap.lookupBlock_allocCell, hrelblk h.next (by omega),
      Heap.lookupBlock_alloc_self]
    by_cases hP : 0 < s.size ∧
        h.readByte ⟨s.data.block, s.data.off + s.size - 1⟩ = 0 <;>
      simp [hnd, hP]
  · rw [← hrelnext]
    exact Heap.lookupCell_allocCell_self _ 1
  · intro j hjb hjn
    rw [Heap.lookupBlock_allocCell, hrelblk j hjb,
      Heap.lookupBlock_alloc_ne h nd.2 hjn]
  · intro d n hso hsr hsc hslt
    have hdn : d < h.next := Heap.lookupCell_lt_next hw hsc
    have hA : (h.alloc nd.2).2.lookupCell d = some (n + 1) := hsc
    have hrel : release_data_if_needed s (h.alloc nd.2).2 =
        if n = 0 then
          ((h.alloc nd.2).2.setCell d n).freeBlock s.data.block
        else (h.alloc nd.2).2.setCell d n :=
      release_dec hso hsr hA hslt
    have hd2 : ((release_data_if_needed s (h.alloc nd.2).2).allocCell 1).2.lookupCell d =
        (release_data_if_needed s (h.alloc nd.2).2).lookupCell d := by
      refine Heap.lookupCell_allocCell_ne _ 1 ?_
      rw [hrelnext]
      omega
    constructor
    · rw [hd2, hrel]
      by_cases hn : n = 0
      · rw [if_pos hn, Heap.lookupCell_freeBlock]
        exact Heap.lookupCell_setCell_self n hA
      · rw [if_neg hn]
        exact Heap.lookupCell_setCell_self n hA
    · intro hnpos
      rw [Heap.lookupBlock_allocCell, hrel, if_neg (by omega),
        Heap.lookupBlock_setCell, Heap.lookupBlock_alloc_ne h nd.2 (by omega)]
      exact hblk
  · intro hrelease
    have hid : release_data_if_needed s (h.alloc nd.2).2 = (h.alloc nd.2).2 := by
      rcases hrelease with hcase | hcase
      · exact release_not_owning s _ hcase
      · exact release_no_cell s _ hcase
    rw [Heap.lookupBlock_allocCell, hid,
      Heap.lookupBlock_alloc_ne h nd.2 (by omega)]
    exact hblk

theorem appendAssign_bytes {s str : String} {h : Heap} {blk : List Nat}
    (hw : h.WF) (hblk : h.lookupBlock s.data.block = some blk)
    (hsl : (h.readBytes s.data s.size).length = s.size)
    (htl : (h.readBytes str.data str.size).length = str.size)
    (ha : s.size < U32) (hb : str.size < U32)
    (hchk : s.size < (s.size + str.size) % U32 ∧
      str.size < (s.size + str.size) % U32) :
    ∃ r h₂, appendAssign s str h = some (r, h₂) ∧
      r.size = (if (h.readBytes s.data s.size).getLast? = some 0 then
          s.size - 1 + str.size
        else s.size + str.size) ∧
      h₂.readBytes r.data r.size =
        (if (h.readBytes s.data s.size).getLast? = some 0 then
          (h.readBytes s.data s.size).dropLast
        else h.readBytes s.data s.size) ++ h.readBytes str.data str.size := by
  obtain ⟨hpa, hpb, hsum⟩ := (append_check_iff ha hb).mp hchk
  obtain ⟨r, h₂, happ, hsize, hdata, hown, hrc, hfresh, hnewblk, hcell,
    hother, hdec, hnorel⟩ := appendAssign_success s str h hw hblk hchk
  have hPiff : (0 < s.size ∧
      h.readByte ⟨s.data.block, s.data.off + s.size - 1⟩ = 0) ↔
      (h.readBytes s.data s.size).getLast? = some 0 := by
    constructor
    · rintro ⟨-, hz⟩
      exact (Heap.readByte_last_zero_iff hpa hsl).mp hz
    · intro hz
      exact ⟨hpa, (Heap.readByte_last_zero_iff hpa hsl).mpr hz⟩
  have hlen1 : (h.readBytes s.data (s.size - 1)).length = s.size - 1 :=
    Heap.readBytes_full_take hsl (by omega)
  refine ⟨r, h₂, happ, ?_, ?_⟩
  · rw [hsize, if_congr hPiff rfl rfl]
    by_cases hz : (h.readBytes s.data s.size).getLast? = some 0
    · rw [if_pos hz, if_pos hz, Nat.mod_eq_of_lt (by omega)]
    · rw [if_neg hz, if_neg hz, Nat.mod_eq_of_lt (by omega)]
  · by_cases hz : (h.readBytes s.data s.size).getLast? = some 0
    · have hP := hPiff.mpr hz
      rw [if_pos hP] at hnewblk
      rw [if_pos hP, Nat.mod_eq_of_lt (by omega)] at hsize
      rw [if_pos hz, hdata]
      unfold Heap.readBytes
      dsimp only
      rw [hnewblk, Option.getD_some, List.drop_zero, hsize,
        List.take_of_length_le (by rw [List.length_append, hlen1, htl]),
        Heap.readBytes_pred hsl]
      rfl
    · have hP : ¬ (0 < s.size ∧
          h.readByte ⟨s.data.block, s.data.off + s.size - 1⟩ = 0) := by
        intro hcon
        exact hz (hPiff.mp hcon)
      rw [if_neg hP] at hnewblk
      rw [if_neg hP, Nat.mod_eq_of_lt (by omega)] at hsize
      rw [if_neg hz, hdata]
      unfold Heap.readBytes
      dsimp only
      rw [hnewblk, Option.getD_some, List.drop_zero, hsize,
        List.take_of_length_le (by rw [List.length_append, hsl, htl])]
      rfl

theorem countLeadBytes_eq_countP (l : List Nat) :
    countLeadBytes l = l.countP fun b => !decide (0x80 ≤ b ∧ b ≤ 0xBF) := by
  induction l with
  | nil => simp [countLeadBytes]
  | cons b t ih =>
    rw [List.countP_cons]
    unfold countLeadBytes
    rw [ih]
    by_cases hb : 0x80 ≤ b ∧ b ≤ 0xBF
    · simp [hb]
    · simp [hb]
      omega

end String

/-- Claim C6: for a fully readable buffer, `strlen()` returns `size - 1`
when `size > 0` and the final byte equals the zero byte, and returns
`size` otherwise. -/
theorem strlen_terminator_spec (s : String) (h : Heap)
    (hlen : (h.readBytes s.data s.size).length = s.size) :
    String.strlen s h =
      if 0 < s.size ∧ (h.readBytes s.data s.size).getLast? = some 0 then
        s.size - 1
      else s.size := by
  unfold String.strlen
  by_cases hz : 0 < s.size
  · rw [if_congr (and_congr_right fun _ =>
      Heap.readByte_last_zero_iff hz hlen) rfl rfl]
  · simp [hz]

/-- Claim C6 witness: the 4-byte buffer abc NUL has `strlen` 3, and the
3-byte buffer abc also has `strlen` 3. -/
theorem strlen_terminator_spec_witness :
    String.strlen wAbc0 wHeap = 3 ∧ String.strlen wAbc wHeap = 3 :=
  ⟨(strlen_terminator_spec wAbc0 wHeap (by decide)).trans (by decide),
   (strlen_terminator_spec wAbc wHeap (by decide)).trans (by decide)⟩

/-- Claim C7: for a fully readable buffer, `strlenUTF8()` returns the
number of bytes of the scan range whose value is not a UTF-8 continuation
byte (not in [0x80, 0xBF]), the scan range being all `size` bytes except
that a final zero byte is excluded first. -/
theorem strlenUTF8_count_spec (s : String) (h : Heap)
    (hlen : (h.readBytes s.data s.size).length = s.size) :
    String.strlenUTF8 s h =
      (if 0 < s.size ∧ (h.readBytes s.data s.size).getLast? = some 0 then
        (h.readBytes s.data s.size).dropLast
      else h.readBytes s.data s.size).countP
        (fun b => !decide (0x80 ≤ b ∧ b ≤ 0xBF)) := by
  unfold String.strlenUTF8
  by_cases hz : 0 < s.size
  · rw [String.countLeadBytes_eq_countP,
      if_congr (and_congr_right fun _ =>
        Heap.readByte_last_zero_iff hz hlen) rfl rfl]
    by_cases hc : 0 < s.size ∧ (h.readBytes s.data s.size).getLast? = some 0
    · rw [if_pos hc, if_pos hc, Heap.readBytes_pred hlen]
    · rw [if_neg hc, if_neg hc]
  · have hs : s.size = 0 := by omega
    simp [hs, String.countLeadBytes_eq_countP]

/-- Claim C7 witness: the UTF-8 bytes of "h, e-acute, l, l, o" give 5 with
or without a trailing zero byte. -/
theorem strlenUTF8_count_spec_witness :
    String.strlenUTF8 wHacc wHeap = 5 ∧ String.strlenUTF8 wHacc0 wHeap = 5 :=
  ⟨(strlenUTF8_count_spec wHacc wHeap (by decide)).trans (by decide),
   (strlenUTF8_count_spec wHacc0 wHeap (by decide)).trans (by decide)⟩

/-- Claim C5 counterexample: on the 1-byte buffers 0x61 and 0xC3 the left
operand's (only, hence first differing) byte is smaller as a byte, so
byte-wise comparison demands -1 — but `compare` reads the bytes as plain
(signed) chars, where 0xC3 is negative, and returns 1, with `operator<`
answering false. -/
theorem compare_byte_lex_counterexample :
    String.compare wLowA wHiByte wHeapC = 1 ∧
      ¬ String.compare wLowA wHiByte wHeapC = -1 ∧
      lexLtSpec (wHeapC.readBytes wLowA.data wLowA.size)
        (wHeapC.readBytes wHiByte.data wHiByte.size) ∧
      String.ltOp wLowA wHiByte wHeapC = false :=
  ⟨by decide, by decide,
    Or.inr ⟨[], 97, 195, [], [], rfl, rfl, by decide⟩, by decide⟩

/-- Claim C5, amended: `compare` compares byte-by-byte up to the shorter
length by the signed `char` value of each byte (so bytes 0x80-0xFF order
below 0x00-0x7F) and returns exactly one of {1, 0, -1}: 0 iff the byte
contents are identical, -1 iff the left operand is a strict prefix of the
right or its first differing byte is smaller as a signed char, 1 in the
symmetric case; <, >, ==, != are derived from the three-way result with
the same tie-breaking; on the ASCII examples, abc < abd, abc < abcd,
abc == abc. -/
theorem compare_signed_lex_spec (a b : String) (h : Heap)
    (hva : ∀ x ∈ h.readBytes a.data a.size, x < 256)
    (hvb : ∀ x ∈ h.readBytes b.data b.size, x < 256) :
    (String.compare a b h = 1 ∨ String.compare a b h = 0 ∨
      String.compare a b h = -1) ∧
    (String.compare a b h = 0 ↔
      h.readBytes a.data a.size = h.readBytes b.data b.size) ∧
    (String.compare a b h = -1 ↔
      lexLtSignedSpec (h.readBytes a.data a.size)
        (h.readBytes b.data b.size)) ∧
    (String.compare a b h = 1 ↔
      lexLtSignedSpec (h.readBytes b.data b.size)
        (h.readBytes a.data a.size)) ∧
    (String.ltOp a b h = true ↔ String.compare a b h < 0) ∧
    (String.gtOp a b h = true ↔ 0 < String.compare a b h) ∧
    (String.eqOp a b h = true ↔ String.compare a b h = 0) ∧
    (String.neOp a b h = true ↔ ¬ String.compare a b h = 0) ∧
    String.ltOp wAbc wAbd wHeap = true ∧
    String.ltOp wAbc wAbcd wHeap = true ∧
    String.eqOp wAbc wAbc wHeap = true := by
  refine ⟨String.compareBytes_trichot _ _,
    String.compareBytes_eq_zero_iff _ _ hva hvb,
    String.compareBytes_eq_negOne_iff _ _ hva hvb,
    String.compareBytes_eq_one_iff _ _ hva hvb,
    ?_, ?_, ?_, ?_, by decide, by decide, by decide⟩ <;>
    simp [String.ltOp, String.gtOp, String.eqOp, String.neOp]

/-- Claim C5 witness (amended): the ASCII buffers abc and abd satisfy the
byte-validity hypotheses, and by the amended characterization compare
returns -1 there, with abc < abd. -/
theorem compare_signed_lex_spec_witness :
    String.compare wAbc wAbd wHeap = -1 ∧
      String.ltOp wAbc wAbd wHeap = true := by
  have hs := compare_signed_lex_spec wAbc wAbd wHeap (by decide) (by decide)
  have hlt : lexLtSignedSpec (wHeap.readBytes wAbc.data wAbc.size)
      (wHeap.readBytes wAbd.data wAbd.size) :=
    Or.inr ⟨[97, 98], 99, 100, [], [], rfl, rfl, by decide⟩
  exact ⟨hs.2.2.1.mpr hlt, hs.2.2.2.2.2.2.2.2.1⟩

/-- Claim C2: copy-construction and copy-assignment alias the source's
data, size, own_memory and refcount and increment the shared counter when
it is present; destruction (and the release step of reassignment) of an
owning instance decrements the counter and the allocation is freed exactly
when the counter reaches zero; hence copy-constructing b from a and then
destroying a leaves b's bytes readable and unchanged, with the counter
back at 1. -/
theorem refcount_copy_destroy_spec (a : String) (h : Heap) {c : Nat}
    {blk : List Nat}
    (ho : a.own_memory = true) (hr : a.refcount = some c)
    (hc : h.lookupCell c = some 1)
    (hblk : h.lookupBlock a.data.block = some blk) :
    ((String.copyCtor a h).1 = a ∧
      ((String.copyCtor a h).2).lookupCell c = some 2 ∧
      ((String.copyCtor a h).2).blocks = h.blocks) ∧
    (∀ u : String, ∀ hp : Heap, String.assignFrom u a hp =
      String.copyCtor a (String.release_data_if_needed u hp)) ∧
    (∀ (s : String) (hp : Heap) (d n : Nat), s.own_memory = true →
      s.refcount = some d → hp.lookupCell d = some (n + 1) → n + 1 < U32 →
      ((String.destruct s hp).lookupCell d = some n ∧
        (n = 0 → (String.destruct s hp).lookupBlock s.data.block = none) ∧
        (0 < n → (String.destruct s hp).lookupBlock s.data.block =
          hp.lookupBlock s.data.block))) ∧
    ((String.destruct a (String.copyCtor a h).2).lookupCell c = some 1 ∧
      (String.destruct a (String.copyCtor a h).2).lookupBlock a.data.block =
        some blk ∧
      (String.destruct a (String.copyCtor a h).2).readBytes
          ((String.copyCtor a h).1).data ((String.copyCtor a h).1).size =
        h.readBytes a.data a.size) := by
  have h2eq : (1 + 1) % U32 = 2 := by decide
  have hcopy2 : (String.copyCtor a h).2 = h.setCell c 2 := by
    rw [String.copyCtor_snd_some h hr hc, h2eq]
  have hcell2 : ((String.copyCtor a h).2).lookupCell c = some 2 := by
    rw [hcopy2]
    exact Heap.lookupCell_setCell_self 2 hc
  have hdes : ∀ (s : String) (hp : Heap) (d n : Nat), s.own_memory = true →
      s.refcount = some d → hp.lookupCell d = some (n + 1) → n + 1 < U32 →
      ((String.destruct s hp).lookupCell d = some n ∧
        (n = 0 → (String.destruct s hp).lookupBlock s.data.block = none) ∧
        (0 < n → (String.destruct s hp).lookupBlock s.data.block =
          hp.lookupBlock s.data.block)) := by
    intro s hp d n hso hsr hsc hslt
    unfold String.destruct
    rw [String.release_dec hso hsr hsc hslt]
    by_cases hn : n = 0
    · subst hn
      rw [if_pos rfl]
      refine ⟨?_, fun _ => by simp, fun hcon => absurd hcon (by omega)⟩
      rw [Heap.lookupCell_freeBlock]
      exact Heap.lookupCell_setCell_self 0 hsc
    · rw [if_neg hn]
      exact ⟨Heap.lookupCell_setCell_self n hsc, fun hcon => absurd hcon hn,
        fun _ => rfl⟩
  have hlt2 : (1 : Nat) + 1 < U32 := by decide
  have hfinal := hdes a (String.copyCtor a h).2 c 1 ho hr hcell2 hlt2
  refine ⟨⟨String.copyCtor_fst a h, hcell2, String.copyCtor_blocks a h⟩,
    fun u hp => rfl, hdes, hfinal.1, ?_, ?_⟩
  · rw [hfinal.2.2 (by omega), hcopy2]
    exact hblk
  · rw [String.copyCtor_fst a h]
    unfold String.destruct
    rw [String.release_dec ho hr hcell2 hlt2, if_neg (by omega), hcopy2]
    rfl

/-- Claim C2 witness: for the sole owner of the hello block (refcount 1),
copy-constructing a second alias and destroying the first leaves the bytes
of the copy readable and unchanged with the counter back at 1. -/
theorem refcount_copy_destroy_spec_witness :
    (String.destruct wOwnHello (String.copyCtor wOwnHello wHeapOwn).2).lookupCell
        2 = some 1 ∧
      (String.destruct wOwnHello
            (String.copyCtor wOwnHello wHeapOwn).2).lookupBlock
          wOwnHello.data.block = some [104, 101, 108, 108, 111] ∧
      (String.destruct wOwnHello (String.copyCtor wOwnHello wHeapOwn).2).readBytes
          ((String.copyCtor wOwnHello wHeapOwn).1).data
          ((String.copyCtor wOwnHello wHeapOwn).1).size =
        wHeapOwn.readBytes wOwnHello.data wOwnHello.size :=
  (refcount_copy_destroy_spec wOwnHello wHeapOwn rfl rfl (by decide)
    (by decide)).2.2.2

/-- Claim C3: when in-place concatenation succeeds, the result's bytes are
the left operand's bytes with the final zero byte removed when its last
byte is zero, followed by all of the right operand's bytes; the result
size is `size - 1 + other.size` in the terminator case and
`size + other.size` otherwise; the non-mutating + derived from +=
produces the same size and bytes. -/
theorem append_concat_bytes_spec (s str : String) (h : Heap) (blk : List Nat)
    (hw : h.WF) (hblk : h.lookupBlock s.data.block = some blk)
    (hsl : (h.readBytes s.data s.size).length = s.size)
    (htl : (h.readBytes str.data str.size).length = str.size)
    (ha : s.size < U32) (hb : str.size < U32)
    (hchk : s.size < (s.size + str.size) % U32 ∧
      str.size < (s.size + str.size) % U32) :
    ∃ r h₂, String.appendAssign s str h = some (r, h₂) ∧
      r.size = (if (h.readBytes s.data s.size).getLast? = some 0 then
          s.size - 1 + str.size
        else s.size + str.size) ∧
      h₂.readBytes r.data r.size =
        (if (h.readBytes s.data s.size).getLast? = some 0 then
          (h.readBytes s.data s.size).dropLast
        else h.readBytes s.data s.size) ++ h.readBytes str.data str.size ∧
      ∃ r' h₃, String.appendPure s str h = some (r', h₃) ∧
        r'.size = r.size ∧
        h₃.readBytes r'.data r'.size = h₂.readBytes r.data r.size := by
  obtain ⟨r, h₂, happ, hsz, hby⟩ :=
    String.appendAssign_bytes hw hblk hsl htl ha hb hchk
  have hpure : String.appendPure s str h =
      String.appendAssign s str (String.copyCtor s h).2 := by
    show String.appendAssign (String.copyCtor s h).1 str
      (String.copyCtor s h).2 = _
    rw [String.copyCtor_fst]
  have hw' := @String.copyCtor_WF s h hw
  have hblk' : (String.copyCtor s h).2.lookupBlock s.data.block = some blk := by
    rw [String.copyCtor_lookupBlock]
    exact hblk
  have hsl' : ((String.copyCtor s h).2.readBytes s.data s.size).length =
      s.size := by
    rw [String.copyCtor_readBytes]
    exact hsl
  have htl' : ((String.copyCtor s h).2.readBytes str.data str.size).length =
      str.size := by
    rw [String.copyCtor_readBytes]
    exact htl
  obtain ⟨r', h₃, happ', hsz', hby'⟩ :=
    String.appendAssign_bytes hw' hblk' hsl' htl' ha hb hchk
  simp only [String.copyCtor_readBytes] at hsz' hby'
  refine ⟨r, h₂, happ, hsz, hby, r', h₃, by rw [hpure, happ'], ?_, ?_⟩
  · rw [hsz', hsz]
  · rw [hby', hby]

/-- Claim C3 witness: the 3-byte buffer ab NUL concatenated with the
2-byte buffer cd yields the 4-byte buffer abcd, for += and +. -/
theorem append_concat_bytes_spec_witness :
    ∃ r h₂, String.appendAssign wAb0 wCd wHeap = some (r, h₂) ∧
      r.size = 4 ∧ h₂.readBytes r.data r.size = [97, 98, 99, 100] ∧
      ∃ r' h₃, String.appendPure wAb0 wCd wHeap = some (r', h₃) ∧
        r'.size = 4 ∧ h₃.readBytes r'.data r'.size = [97, 98, 99, 100] := by
  obtain ⟨r, h₂, happ, hsz, hby, r', h₃, happ', hsz', hby'⟩ :=
    @append_concat_bytes_spec wAb0 wCd wHeap [97, 98, 0]
      ⟨by decide, by decide⟩
      (by decide) (by decide) (by decide) (by decide) (by decide) (by decide)
  rw [hby] at hby'
  rw [hsz] at hsz'
  refine ⟨r, h₂, happ, by rw [hsz]; decide, by rw [hby]; decide,
    r', h₃, happ', by rw [hsz']; decide, by rw [hby']; decide⟩

/-- Claim C4: concatenation (+= and the + derived from it) fails with the
overflow assertion iff the unsigned 32-bit sum `size + other.size` does
not strictly exceed both sizes individually; equivalently (for in-range
sizes) iff either size is zero or the mathematical sum reaches 2^32, so
sums that wrap past zero halt with the fatal assertion instead of
producing a truncated length. -/
theorem append_overflow_spec (s str : String) (h : Heap)
    (ha : s.size < U32) (hb : str.size < U32) :
    (String.appendAssign s str h = none ↔
      ¬(s.size < (s.size + str.size) % U32 ∧
        str.size < (s.size + str.size) % U32)) ∧
    (String.appendAssign s str h = none ↔
      (s.size = 0 ∨ str.size = 0 ∨ U32 ≤ s.size + str.size)) ∧
    (String.appendPure s str h = none ↔
      String.appendAssign s str h = none) := by
  have h1 := String.appendAssign_none_iff s str h
  refine ⟨h1, ?_, String.appendPure_none_iff s str h⟩
  rw [h1, String.append_check_iff ha hb]
  omega

/-- Claim C4 witness: a 4294967295-byte left operand and a 2-byte right
operand make the unsigned sum wrap past zero, and both += and + halt with
the overflow assertion. -/
theorem append_overflow_spec_witness :
    String.appendAssign wBig wCd wHeap = none ∧
      String.appendPure wBig wCd wHeap = none := by
  have hs := append_overflow_spec wBig wCd wHeap (by decide) (by decide)
  have hnone : String.appendAssign wBig wCd wHeap = none :=
    hs.2.1.mpr (Or.inr (Or.inr (by decide)))
  exact ⟨hnone, hs.2.2.mpr hnone⟩

/-- Claim C9: whenever either operand has size 0, += (and hence +) fails
with the overflow assertion even though no unsigned wraparound occurs,
because `size + other.size` then equals the larger operand's size and does
not strictly exceed both sizes. -/
theorem append_empty_overflow_spec (s str : String) (h : Heap)
    (hz : s.size = 0 ∨ str.size = 0) :
    String.appendAssign s str h = none ∧
      String.appendPure s str h = none := by
  have hno : String.appendAssign s str h = none := by
    rw [String.appendAssign_none_iff]
    rintro ⟨c1, c2⟩
    have hb1 : (s.size + str.size) % U32 ≤ s.size + str.size := Nat.mod_le _ _
    rcases hz with hz | hz <;> omega
  exact ⟨hno, (String.appendPure_none_iff s str h).mpr hno⟩

/-- Claim C9 witness: appending the 2-byte cd buffer to the empty string
halts with the overflow assertion, for += and +. -/
theorem append_empty_overflow_spec_witness :
    String.appendAssign String.mkEmpty wCd wHeap = none ∧
      String.appendPure String.mkEmpty wCd wHeap = none :=
  append_empty_overflow_spec String.mkEmpty wCd wHeap (Or.inl rfl)

/-- Claim C8: a successful concatenation leaves the left operand holding a
freshly allocated buffer with own_memory true and a fresh refcount equal
to 1; the left operand's prior reference is released (decrement, free only
at zero) only after the new buffer has been built from the old bytes, and
the old allocation's bytes seen by other aliasing views are never mutated
(the old block is unchanged whenever aliases remain). -/
theorem append_fresh_ownership_spec (s str : String) (h : Heap)
    (blk : List Nat) (c n : Nat)
    (hw : h.WF) (hblk : h.lookupBlock s.data.block = some blk)
    (ho : s.own_memory = true) (hr : s.refcount = some c)
    (hc : h.lookupCell c = some (n + 1)) (hlt : n + 1 < U32)
    (hchk : s.size < (s.size + str.size) % U32 ∧
      str.size < (s.size + str.size) % U32) :
    ∃ r h₂, String.appendAssign s str h = some (r, h₂) ∧
      r.own_memory = true ∧
      r.data.block = h.next ∧ h.lookupBlock h.next = none ∧
      r.refcount = some (h.next + 1) ∧
      h₂.lookupCell (h.next + 1) = some 1 ∧
      h₂.lookupCell c = some n ∧
      (0 < n → h₂.lookupBlock s.data.block = some blk) ∧
      h₂.lookupBlock r.data.block = some (if 0 < s.size ∧
          h.readByte ⟨s.data.block, s.data.off + s.size - 1⟩ = 0 then
          h.readBytes s.data (s.size - 1) ++ h.readBytes str.data str.size
        else h.readBytes s.data s.size ++ h.readBytes str.data str.size) := by
  obtain ⟨r, h₂, happ, hsize, hdata, hown, hrc, hfresh, hnewblk, hcell,
    hother, hdec, hnorel⟩ := String.appendAssign_success s str h hw hblk hchk
  obtain ⟨hdecc, hdecb⟩ := hdec c n ho hr hc hlt
  refine ⟨r, h₂, happ, hown, by rw [hdata], hfresh, hrc, hcell, hdecc,
    hdecb, ?_⟩
  rw [hdata]
  exact hnewblk

/-- Claim C8 witness: with the ab-NUL block owned at refcount 2 (another
alias remains), += with the cd buffer yields a fresh owned block with
refcount 1 while the old block stays live and unchanged with its counter
decremented to 1. -/
theorem append_fresh_ownership_spec_witness :
    ∃ r h₂, String.appendAssign wOwnAb0 wCdShared wHeapShared = some (r, h₂) ∧
      r.own_memory = true ∧
      r.data.block = 4 ∧ wHeapShared.lookupBlock 4 = none ∧
      r.refcount = some 5 ∧
      h₂.lookupCell 5 = some 1 ∧
      h₂.lookupCell 3 = some 1 ∧
      h₂.lookupBlock wOwnAb0.data.block = some [97, 98, 0] ∧
      h₂.lookupBlock r.data.block = some [97, 98, 99, 100] := by
  obtain ⟨r, h₂, happ, hown, hblk4, hfresh, hrc, hcell, hdecc, hdecb, hnew⟩ :=
    @append_fresh_ownership_spec wOwnAb0 wCdShared wHeapShared [97, 98, 0] 3 1
      ⟨by decide, by decide⟩
      (by decide) (by decide) (by decide) (by decide) (by decide)
      (by decide)
  refine ⟨r, h₂, happ, hown, hblk4, by decide, hrc, hcell, hdecc,
    hdecb (by decide), by rw [hnew]; decide⟩

/-- Claim C1: `substr(offset, length, copyFlag)` fails with the
out-of-bounds assertion iff `offset >= size` or `offset + length >= size`
(unsigned 32-bit sum) — so a range reaching exactly the end of the buffer
is rejected — and when the check passes it returns
`String(data + offset, length, copyFlag)`: a Buffer-String of exactly
`length` bytes over `data + offset`, honoring `copyFlag` exactly as in
from-pointer construction (copy: fresh owned block holding the bytes read
at `data + offset`, refcount 1; no copy: borrowed view, not owning, null
refcount, heap untouched). -/
theorem substr_bounds_spec (s : String) (offset len : Nat) (cf : Bool)
    (h : Heap)
    (h1 : offset < s.size) (h2 : (offset + len) % U32 < s.size) :
    (∀ off2 len2 cf2, String.substr s off2 len2 cf2 h = none ↔
      (s.size ≤ off2 ∨ s.size ≤ (off2 + len2) % U32)) ∧
    String.substr s offset len cf h =
      some (String.mkFromPtr ⟨s.data.block, s.data.off + offset⟩ len cf h) ∧
    (∃ r h₂, String.substr s offset len cf h = some (r, h₂) ∧
      r.size = len ∧
      (cf = false →
        r = ⟨len, ⟨s.data.block, s.data.off + offset⟩, false, none⟩ ∧
        h₂ = h) ∧
      (cf = true → r.own_memory = true ∧ r.data = ⟨h.next, 0⟩ ∧
        r.refcount = some (h.next + 1) ∧
        h₂.lookupCell (h.next + 1) = some 1 ∧
        h₂.lookupBlock h.next =
          some (h.readBytes ⟨s.data.block, s.data.off + offset⟩ len))) := by
  have hiff : ∀ off2 len2 cf2, String.substr s off2 len2 cf2 h = none ↔
      (s.size ≤ off2 ∨ s.size ≤ (off2 + len2) % U32) := by
    intro off2 len2 cf2
    by_cases hc : off2 < s.size ∧ (off2 + len2) % U32 < s.size
    · simp only [String.substr, if_pos hc]
      simp
      omega
    · simp only [String.substr, if_neg hc]
      simp
      omega
  have heq : String.substr s offset len cf h =
      some (String.mkFromPtr ⟨s.data.block, s.data.off + offset⟩ len cf h) := by
    simp only [String.substr, if_pos (And.intro h1 h2)]
  refine ⟨hiff, heq, ?_⟩
  cases cf with
  | false =>
    rw [heq, String.mkFromPtr_view_eq]
    exact ⟨_, _, rfl, rfl, fun _ => ⟨rfl, rfl⟩, fun hcon => by simp at hcon⟩
  | true =>
    rw [heq, String.mkFromPtr_copy_eq]
    refine ⟨_, _, rfl, rfl, fun hcon => by simp at hcon,
      fun _ => ⟨rfl, rfl, rfl, ?_, ?_⟩⟩
    · have := Heap.lookupCell_allocCell_self
        (h.alloc (h.readBytes ⟨s.data.block, s.data.off + offset⟩ len)).2 1
      simpa using this
    · rw [Heap.lookupBlock_allocCell]
      exact Heap.lookupBlock_alloc_self h _

/-- Claim C1 witness: on the 5-byte abcde buffer, `substr(2, 3, false)`
fails (offset + length equals size), while `substr(2, 2, false)` succeeds
and yields a non-owning 2-byte view sharing the original bytes. -/
theorem substr_bounds_spec_witness :
    String.substr wAbcde 2 3 false wHeap = none ∧
      String.substr wAbcde 2 2 false wHeap =
        some (⟨2, ⟨1, 2⟩, false, none⟩, wHeap) := by
  obtain ⟨hiff, heq, r, h₂, hsub, hsz, hview, -⟩ :=
    substr_bounds_spec wAbcde 2 2 false wHeap (by decide) (by decide)
  obtain ⟨hr, hh⟩ := hview rfl
  refine ⟨(hiff 2 3 false).mpr (by decide), ?_⟩
  rw [hsub, hr, hh]
  rfl

/-- Claim C10: `compare` is an antisymmetric three-way order on byte
contents: `a.compare(b) = -(b.compare(a))` and `a.compare(a) = 0`; for
every pair exactly one of <, ==, > holds, and != holds iff == does not. -/
theorem compare_antisymmetric_trichotomy (a b : String) (h : Heap) :
    (String.compare a b h = -String.compare b a h) ∧
    (String.compare a a h = 0) ∧
    ((String.ltOp a b h = true ∧ ¬ String.eqOp a b h = true ∧
        ¬ String.gtOp a b h = true) ∨
      (¬ String.ltOp a b h = true ∧ String.eqOp a b h = true ∧
        ¬ String.gtOp a b h = true) ∨
      (¬ String.ltOp a b h = true ∧ ¬ String.eqOp a b h = true ∧
        String.gtOp a b h = true)) ∧
    (String.neOp a b h = true ↔ ¬ String.eqOp a b h = true) := by
  refine ⟨?_, ?_, ?_, ?_⟩
  · rw [String.compare, String.compare, String.compareBytes_neg]
  · exact String.compareBytes_self _
  · rcases String.compareBytes_trichot (h.readBytes a.data a.size)
      (h.readBytes b.data b.size) with hc | hc | hc <;>
      [right; right; left] <;>
      simp [String.ltOp, String.gtOp, String.eqOp, String.compare, hc]
  · simp [String.neOp, String.eqOp]

end eos
